import Mathlib

set_option maxRecDepth 20000
set_option maxHeartbeats 1000000

/-!
Shallow embedding of the brainfuck interpreter of `src/sourcecode.c`
(function `execute_brainfuck`, lines 45-219, plus its configuration
record, lines 13-18).  The tape is modelled as a total function
`Nat → Nat` whose cells are kept below 256 by the write operations,
the instruction sequence as a `List Char`, and the external input
source as a `List Nat` of bytes.  The C `while (pc < code_length)`
loop becomes a fuel-indexed `run` function.
-/

/-- Mirror of the C `BrainfuckConfig` struct (sourcecode.c lines 13-18). -/
structure BrainfuckConfig where
  wrap_memory : Bool
  debug_mode : Bool
  memory_size : Nat
  eof_behavior : Bool
deriving DecidableEq

/-- Mirror of `DEFAULT_MEMORY_SIZE` (line 8). -/
def DEFAULT_MEMORY_SIZE : Nat := 30000

/-- Mirror of `MAX_NESTED_LOOPS` (line 9). -/
def MAX_NESTED_LOOPS : Nat := 1000

/-- Mirror of `INPUT_BUFFER_SIZE` (line 11). -/
def INPUT_BUFFER_SIZE : Nat := 4096

/-- The default configuration built in `main` (lines 260-265). -/
def defaultConfig : BrainfuckConfig :=
  { wrap_memory := false, debug_mode := false,
    memory_size := DEFAULT_MEMORY_SIZE, eof_behavior := false }

/-- The fatal error kinds of the engine (spec section 7; `fprintf`+`return`
sites in `execute_brainfuck`). -/
inductive BFError where
  | outOfBounds (pos : Nat)
  | unmatchedOpen (pos : Nat)
  | unmatchedClose (pos : Nat)
  | loopStackOverflow
deriving DecidableEq

/-- The mutable state of `execute_brainfuck`: the tape `memory`, the data
pointer (as an index), the program counter, the loop stack (head = top,
i.e. `loop_stack[stack_pos-1]`), the not-yet-consumed part of the input
buffer (`input_buffer[input_pos .. input_size)`), the unread external
input stream, and the bytes written to stdout so far. -/
structure BFState where
  mem : Nat → Nat
  ptr : Nat
  pc : Nat
  loop_stack : List Nat
  buffered : List Nat
  input : List Nat
  output : List Nat

/-- Functional update of one tape cell. -/
def mem_write (m : Nat → Nat) (p v : Nat) : Nat → Nat :=
  fun i => if i = p then v else m i

/-- The `>` pointer move of `execute_brainfuck` (lines 83-96):
wrap from the last index to 0 under `wrap_memory`, otherwise move right
if strictly below the last index and fail (`none`) at the edge. -/
def move_right (cfg : BrainfuckConfig) (p : Nat) : Option Nat :=
  if cfg.wrap_memory then
    some (if p = cfg.memory_size - 1 then 0 else p + 1)
  else if p < cfg.memory_size - 1 then
    some (p + 1)
  else
    none

/-- The `<` pointer move of `execute_brainfuck` (lines 98-111):
wrap from index 0 to the last index under `wrap_memory`, otherwise move
left if strictly above 0 and fail (`none`) at the edge. -/
def move_left (cfg : BrainfuckConfig) (p : Nat) : Option Nat :=
  if cfg.wrap_memory then
    some (if p = 0 then cfg.memory_size - 1 else p - 1)
  else if 0 < p then
    some (p - 1)
  else
    none

/-- Model of `fgets(buffer, n+1, stdin)` on a byte stream: reads at most
`n` bytes, stopping after a newline (byte 10); returns `[]` when the
stream is exhausted (the `NULL` return). -/
def fgets_chunk : Nat → List Nat → List Nat
  | 0, _ => []
  | _ + 1, [] => []
  | n + 1, b :: rest => if b = 10 then [b] else b :: fgets_chunk n rest

/-- The refill step of the `,` case (lines 128-141): read one chunk with
`fgets`, then set `input_size = strlen(input_buffer)`, i.e. deliver only
the bytes before the first NUL byte.  Returns the deliverable bytes and
the remaining external stream. -/
def refill (input : List Nat) : List Nat × List Nat :=
  (((fgets_chunk (INPUT_BUFFER_SIZE - 1) input).takeWhile fun b => b != 0),
    input.drop (fgets_chunk (INPUT_BUFFER_SIZE - 1) input).length)

/-- The body of the forward scan of the `[` case with cell 0
(lines 158-175), walking the instructions after the current one: `pos`
is the index of the head of `rest` within the full sequence.  Running
out of instructions is the unmatched-`[` case (`none`); otherwise the
result is the index of the matching `]` (where `nest_level` reaches 0). -/
def scan_aux : List Char → Nat → Nat → Option Nat
  | [], _, _ => none
  | c :: rest, pos, nest_level =>
    if c = '[' then
      scan_aux rest (pos + 1) (nest_level + 1)
    else if c = ']' then
      if nest_level = 1 then some pos
      else scan_aux rest (pos + 1) (nest_level - 1)
    else
      scan_aux rest (pos + 1) nest_level

/-- The forward scan of the `[` case with cell 0 (lines 158-175):
starting from position `pc` with nesting level `nest_level`, repeatedly
increment the position and update the level; `none` when the scan runs
past the end of the code (the unmatched-`[` case), otherwise the
position of the matching `]`. -/
def skip_scan (code : List Char) (pc : Nat) (nest_level : Nat) : Option Nat :=
  scan_aux (code.drop (pc + 1)) (pc + 1) nest_level

/-- Result of dispatching a single instruction. -/
inductive StepResult where
  | ok (s : BFState)
  | err (e : BFError) (s : BFState)

/-- One iteration of the dispatch loop of `execute_brainfuck`
(lines 75-209): read the instruction at `pc`, perform its transition,
and advance `pc` by one at the end of every non-error transition
(line 208) — including the loop jumps, which first set `pc` to the
matching bracket's position.  Characters outside the 8-symbol alphabet
fall through the `switch` and only advance `pc`. -/
def step (code : List Char) (cfg : BrainfuckConfig) (s : BFState) : StepResult :=
  if code.getD s.pc ' ' = '>' then
    match move_right cfg s.ptr with
    | some p => .ok { s with ptr := p, pc := s.pc + 1 }
    | none => .err (.outOfBounds s.pc) s
  else if code.getD s.pc ' ' = '<' then
    match move_left cfg s.ptr with
    | some p => .ok { s with ptr := p, pc := s.pc + 1 }
    | none => .err (.outOfBounds s.pc) s
  else if code.getD s.pc ' ' = '+' then
    .ok { s with mem := mem_write s.mem s.ptr ((s.mem s.ptr + 1) % 256), pc := s.pc + 1 }
  else if code.getD s.pc ' ' = '-' then
    .ok { s with mem := mem_write s.mem s.ptr ((s.mem s.ptr + 255) % 256), pc := s.pc + 1 }
  else if code.getD s.pc ' ' = '.' then
    .ok { s with output := s.output ++ [s.mem s.ptr], pc := s.pc + 1 }
  else if code.getD s.pc ' ' = ',' then
    match (if s.buffered.isEmpty then refill s.input else (s.buffered, s.input)) with
    | (b :: rest, inp) =>
        .ok { s with mem := mem_write s.mem s.ptr (b % 256),
                     buffered := rest, input := inp, pc := s.pc + 1 }
    | ([], inp) =>
        if cfg.eof_behavior then
          .ok { s with mem := mem_write s.mem s.ptr 0,
                       buffered := [], input := inp, pc := s.pc + 1 }
        else
          .ok { s with buffered := [], input := inp, pc := s.pc + 1 }
  else if code.getD s.pc ' ' = '[' then
    if s.mem s.ptr = 0 then
      match skip_scan code s.pc 1 with
      | some j => .ok { s with pc := j + 1 }
      | none =>
          .err (.unmatchedOpen (match s.loop_stack with
            | t :: _ => t
            | [] => code.length)) s
    else if MAX_NESTED_LOOPS ≤ s.loop_stack.length then
      .err .loopStackOverflow s
    else
      .ok { s with loop_stack := s.pc :: s.loop_stack, pc := s.pc + 1 }
  else if code.getD s.pc ' ' = ']' then
    match s.loop_stack with
    | [] => .err (.unmatchedClose s.pc) s
    | t :: rest =>
        if s.mem s.ptr ≠ 0 then
          .ok { s with pc := t + 1 }
        else
          .ok { s with loop_stack := rest, pc := s.pc + 1 }
  else
    .ok { s with pc := s.pc + 1 }

/-- Result of a bounded run: normal termination, a fatal error, or fuel
exhaustion (the C loop has no fuel; `timeout` only signals that the given
bound was not enough to decide the run). -/
inductive RunResult where
  | ok (s : BFState)
  | err (e : BFError) (s : BFState)
  | timeout (s : BFState)

/-- The `while (pc < code_length)` loop of `execute_brainfuck`
(lines 75-209), indexed by fuel. -/
def run (code : List Char) (cfg : BrainfuckConfig) : Nat → BFState → RunResult
  | 0, s => .timeout s
  | fuel + 1, s =>
    if s.pc < code.length then
      match step code cfg s with
      | .ok s2 => run code cfg fuel s2
      | .err e s2 => .err e s2
    else
      .ok s

/-- The state at entry of `execute_brainfuck`: zeroed tape (`calloc`),
pointer and program counter 0, empty loop stack, empty input buffer. -/
def initState (input : List Nat) : BFState :=
  { mem := fun _ => 0, ptr := 0, pc := 0, loop_stack := [],
    buffered := [], input := input, output := [] }

/-- Run `execute_brainfuck` on a cleaned instruction sequence from the
initial state, with the given fuel bound. -/
def execute_brainfuck (code : List Char) (cfg : BrainfuckConfig)
    (input : List Nat) (fuel : Nat) : RunResult :=
  run code cfg fuel (initState input)

/-- Whether a run terminated normally (no fatal error, fuel sufficed). -/
def RunResult.isOk : RunResult → Bool
  | .ok _ => true
  | _ => false

/-- The output bytes of a run result. -/
def RunResult.getOutput : RunResult → List Nat
  | .ok s => s.output
  | .err _ s => s.output
  | .timeout s => s.output

/-- The fatal error of a run result, if any. -/
def RunResult.getErr : RunResult → Option BFError
  | .err e _ => some e
  | _ => none

/-- The final (or error-time, or timeout-time) state of a run result. -/
def RunResult.stateOf : RunResult → BFState
  | .ok s => s
  | .err _ s => s
  | .timeout s => s

/-- The program counter stored in a step result's state. -/
def StepResult.pcOf : StepResult → Nat
  | .ok s => s.pc
  | .err _ s => s.pc

/-! ### Characterization of `step` per instruction -/

/-- Stepping `>` with a successful move. -/
theorem step_gt_ok (code : List Char) (cfg : BrainfuckConfig) (s : BFState) (p : Nat)
    (h : code.getD s.pc ' ' = '>') (hm : move_right cfg s.ptr = some p) :
    step code cfg s = .ok { s with ptr := p, pc := s.pc + 1 } := by
  unfold step
  rw [h, hm]
  rfl

/-- Stepping `>` with a failing move. -/
theorem step_gt_err (code : List Char) (cfg : BrainfuckConfig) (s : BFState)
    (h : code.getD s.pc ' ' = '>') (hm : move_right cfg s.ptr = none) :
    step code cfg s = .err (.outOfBounds s.pc) s := by
  unfold step
  rw [h, hm]
  rfl

/-- Stepping `<` with a successful move. -/
theorem step_lt_ok (code : List Char) (cfg : BrainfuckConfig) (s : BFState) (p : Nat)
    (h : code.getD s.pc ' ' = '<') (hm : move_left cfg s.ptr = some p) :
    step code cfg s = .ok { s with ptr := p, pc := s.pc + 1 } := by
  unfold step
  rw [h, hm]
  rfl

/-- Stepping `<` with a failing move. -/
theorem step_lt_err (code : List Char) (cfg : BrainfuckConfig) (s : BFState)
    (h : code.getD s.pc ' ' = '<') (hm : move_left cfg s.ptr = none) :
    step code cfg s = .err (.outOfBounds s.pc) s := by
  unfold step
  rw [h, hm]
  rfl

/-- Stepping `+`. -/
theorem step_plus (code : List Char) (cfg : BrainfuckConfig) (s : BFState)
    (h : code.getD s.pc ' ' = '+') :
    step code cfg s =
      .ok { s with mem := mem_write s.mem s.ptr ((s.mem s.ptr + 1) % 256),
                   pc := s.pc + 1 } := by
  unfold step
  rw [h]
  rfl

/-- Stepping `-`. -/
theorem step_minus (code : List Char) (cfg : BrainfuckConfig) (s : BFState)
    (h : code.getD s.pc ' ' = '-') :
    step code cfg s =
      .ok { s with mem := mem_write s.mem s.ptr ((s.mem s.ptr + 255) % 256),
                   pc := s.pc + 1 } := by
  unfold step
  rw [h]
  rfl

/-- Stepping `.`. -/
theorem step_dot (code : List Char) (cfg : BrainfuckConfig) (s : BFState)
    (h : code.getD s.pc ' ' = '.') :
    step code cfg s = .ok { s with output := s.output ++ [s.mem s.ptr], pc := s.pc + 1 } := by
  unfold step
  rw [h]
  rfl

/-- Stepping `,` with a non-empty buffer: deliver the next buffered byte. -/
theorem step_comma_deliver (code : List Char) (cfg : BrainfuckConfig) (s : BFState)
    (b : Nat) (rest : List Nat)
    (h : code.getD s.pc ' ' = ',') (hb : s.buffered = b :: rest) :
    step code cfg s =
      .ok { s with mem := mem_write s.mem s.ptr (b % 256),
                   buffered := rest, pc := s.pc + 1 } := by
  obtain ⟨mem, ptr, pc, stack, buffered, inp, out⟩ := s
  simp only at h hb
  subst hb
  unfold step
  rw [h]
  rfl

/-- Stepping `,` with an empty buffer whose refill delivers a byte. -/
theorem step_comma_refill_deliver (code : List Char) (cfg : BrainfuckConfig) (s : BFState)
    (b : Nat) (rest rem : List Nat)
    (h : code.getD s.pc ' ' = ',') (hb : s.buffered = [])
    (hr : refill s.input = (b :: rest, rem)) :
    step code cfg s =
      .ok { s with mem := mem_write s.mem s.ptr (b % 256),
                   buffered := rest, input := rem, pc := s.pc + 1 } := by
  obtain ⟨mem, ptr, pc, stack, buffered, inp, out⟩ := s
  simp only at h hb hr
  subst hb
  unfold step
  rw [h]
  show (match refill inp with
    | (b :: rest, inp) => _
    | ([], inp) => _) = _
  rw [hr]

/-- Stepping `,` with an empty buffer whose refill delivers nothing
(end of input, or a chunk starting with a NUL byte): the EOF policy. -/
theorem step_comma_refill_eof (code : List Char) (cfg : BrainfuckConfig) (s : BFState)
    (rem : List Nat)
    (h : code.getD s.pc ' ' = ',') (hb : s.buffered = [])
    (hr : refill s.input = ([], rem)) :
    step code cfg s =
      if cfg.eof_behavior then
        .ok { s with mem := mem_write s.mem s.ptr 0,
                     buffered := [], input := rem, pc := s.pc + 1 }
      else
        .ok { s with buffered := [], input := rem, pc := s.pc + 1 } := by
  obtain ⟨mem, ptr, pc, stack, buffered, inp, out⟩ := s
  simp only at h hb hr
  subst hb
  unfold step
  rw [h]
  show (match refill inp with
    | (b :: rest, inp) => _
    | ([], inp) => _) = _
  rw [hr]

/-- Stepping `[` with current cell 0 and a successful forward scan:
jump to the matching `]` and then advance past it (line 208). -/
theorem step_open_skip (code : List Char) (cfg : BrainfuckConfig) (s : BFState) (j : Nat)
    (h : code.getD s.pc ' ' = '[') (h0 : s.mem s.ptr = 0)
    (hj : skip_scan code s.pc 1 = some j) :
    step code cfg s = .ok { s with pc := j + 1 } := by
  unfold step
  rw [h, h0, hj]
  rfl

/-- Stepping `[` with current cell 0 and a failing forward scan:
the unmatched-`[` error (reported at the enclosing open loop's position,
or at the end of the code when the loop stack is empty). -/
theorem step_open_unmatched (code : List Char) (cfg : BrainfuckConfig) (s : BFState)
    (h : code.getD s.pc ' ' = '[') (h0 : s.mem s.ptr = 0)
    (hj : skip_scan code s.pc 1 = none) :
    step code cfg s =
      .err (.unmatchedOpen (match s.loop_stack with
        | t :: _ => t
        | [] => code.length)) s := by
  unfold step
  rw [h, h0, hj]
  rfl

/-- Stepping `[` with current cell non-zero below the nesting capacity:
push the current position. -/
theorem step_open_push (code : List Char) (cfg : BrainfuckConfig) (s : BFState)
    (h : code.getD s.pc ' ' = '[') (h0 : s.mem s.ptr ≠ 0)
    (hcap : s.loop_stack.length < MAX_NESTED_LOOPS) :
    step code cfg s = .ok { s with loop_stack := s.pc :: s.loop_stack, pc := s.pc + 1 } := by
  unfold step
  rw [h, if_neg h0, if_neg (Nat.not_le.mpr hcap)]
  rfl

/-- Stepping `]` with an empty loop stack: the unmatched-`]` error at the
current position. -/
theorem step_close_empty (code : List Char) (cfg : BrainfuckConfig) (s : BFState)
    (h : code.getD s.pc ' ' = ']') (hs : s.loop_stack = []) :
    step code cfg s = .err (.unmatchedClose s.pc) s := by
  obtain ⟨mem, ptr, pc, stack, buffered, inp, out⟩ := s
  simp only at h hs
  subst hs
  unfold step
  rw [h]
  rfl

/-- Stepping `]` with current cell non-zero: jump back using the position
on top of the loop stack (without popping it) and then advance by one
(line 208), landing on the first instruction of the loop body. -/
theorem step_close_nonzero (code : List Char) (cfg : BrainfuckConfig) (s : BFState)
    (t : Nat) (rest : List Nat)
    (h : code.getD s.pc ' ' = ']') (hs : s.loop_stack = t :: rest)
    (h0 : s.mem s.ptr ≠ 0) :
    step code cfg s = .ok { s with pc := t + 1 } := by
  obtain ⟨mem, ptr, pc, stack, buffered, inp, out⟩ := s
  simp only at h hs h0
  subst hs
  unfold step
  rw [h]
  show (if mem ptr ≠ 0 then _ else _) = _
  rw [if_pos h0]

/-- Stepping `]` with current cell 0: pop the loop stack and advance. -/
theorem step_close_zero (code : List Char) (cfg : BrainfuckConfig) (s : BFState)
    (t : Nat) (rest : List Nat)
    (h : code.getD s.pc ' ' = ']') (hs : s.loop_stack = t :: rest)
    (h0 : s.mem s.ptr = 0) :
    step code cfg s = .ok { s with loop_stack := rest, pc := s.pc + 1 } := by
  obtain ⟨mem, ptr, pc, stack, buffered, inp, out⟩ := s
  simp only at h hs h0
  subst hs
  unfold step
  rw [h]
  show (if mem ptr ≠ 0 then _ else _) = _
  rw [if_neg (by simp [h0])]

/-- Unfolding one iteration of `run` when an instruction remains and the
step fails: the run halts immediately with that error. -/
theorem run_err (code : List Char) (cfg : BrainfuckConfig) (s s2 : BFState)
    (e : BFError) (fuel : Nat)
    (hpc : s.pc < code.length) (hstep : step code cfg s = .err e s2) :
    run code cfg (fuel + 1) s = .err e s2 := by
  unfold run
  rw [if_pos hpc, hstep]

/-! ### Pointer-move algebra (for the wrap policy) -/

/-- Iterated application of a pointer-move operation, failing as soon as
one move fails. -/
def apply_moves (cfg : BrainfuckConfig) (mv : BrainfuckConfig → Nat → Option Nat) :
    Nat → Nat → Option Nat
  | 0, p => some p
  | n + 1, p => (mv cfg p).bind (apply_moves cfg mv n)

/-- Under the wrap policy, `>` is addition by 1 modulo the tape length. -/
theorem move_right_wrap (cfg : BrainfuckConfig) (hw : cfg.wrap_memory = true)
    (p : Nat) (hp : p < cfg.memory_size) :
    move_right cfg p = some ((p + 1) % cfg.memory_size) := by
  unfold move_right
  rw [hw]
  show some (if p = cfg.memory_size - 1 then 0 else p + 1) = _
  rcases eq_or_ne p (cfg.memory_size - 1) with h1 | h1
  · rw [if_pos h1, h1, Nat.sub_add_cancel (by omega), Nat.mod_self]
  · rw [if_neg h1, Nat.mod_eq_of_lt (by omega)]

/-- Under the wrap policy, `<` is addition by `memory_size - 1` modulo the
tape length. -/
theorem move_left_wrap (cfg : BrainfuckConfig) (hw : cfg.wrap_memory = true)
    (p : Nat) (hp : p < cfg.memory_size) :
    move_left cfg p = some ((p + (cfg.memory_size - 1)) % cfg.memory_size) := by
  unfold move_left
  rw [hw]
  show some (if p = 0 then cfg.memory_size - 1 else p - 1) = _
  rcases eq_or_ne p 0 with h1 | h1
  · subst h1
    rw [if_pos rfl, Nat.zero_add, Nat.mod_eq_of_lt (by omega)]
  · rw [if_neg h1]
    have h2 : p + (cfg.memory_size - 1) = (p - 1) + cfg.memory_size := by omega
    rw [h2, Nat.add_mod_right, Nat.mod_eq_of_lt (by omega)]

/-- Iterating `>` under the wrap policy adds `n` modulo the tape length. -/
theorem apply_moves_right_wrap (cfg : BrainfuckConfig) (hw : cfg.wrap_memory = true)
    (n : Nat) : ∀ p, p < cfg.memory_size →
    apply_moves cfg move_right n p = some ((p + n) % cfg.memory_size) := by
  induction n with
  | zero =>
    intro p hp
    unfold apply_moves
    rw [Nat.add_zero, Nat.mod_eq_of_lt hp]
  | succ n ih =>
    intro p hp
    unfold apply_moves
    rw [move_right_wrap cfg hw p hp]
    show apply_moves cfg move_right n ((p + 1) % cfg.memory_size) = _
    rw [ih _ (Nat.mod_lt _ (by omega)), Nat.mod_add_mod]
    have h2 : p + 1 + n = p + (n + 1) := by omega
    rw [h2]

/-- Iterating `<` under the wrap policy adds `n * (memory_size - 1)`
modulo the tape length. -/
theorem apply_moves_left_wrap (cfg : BrainfuckConfig) (hw : cfg.wrap_memory = true)
    (n : Nat) : ∀ p, p < cfg.memory_size →
    apply_moves cfg move_left n p =
      some ((p + n * (cfg.memory_size - 1)) % cfg.memory_size) := by
  induction n with
  | zero =>
    intro p hp
    unfold apply_moves
    rw [Nat.zero_mul, Nat.add_zero, Nat.mod_eq_of_lt hp]
  | succ n ih =>
    intro p hp
    unfold apply_moves
    rw [move_left_wrap cfg hw p hp]
    show apply_moves cfg move_left n ((p + (cfg.memory_size - 1)) % cfg.memory_size) = _
    rw [ih _ (Nat.mod_lt _ (by omega)), Nat.mod_add_mod]
    have h2 : p + (cfg.memory_size - 1) + n * (cfg.memory_size - 1) =
        p + (n + 1) * (cfg.memory_size - 1) := by
      rw [Nat.succ_mul]
      omega
    rw [h2]

/-- Under the bounds policy, `>` fails at the last tape index. -/
theorem move_right_edge (cfg : BrainfuckConfig) (hw : cfg.wrap_memory = false) :
    move_right cfg (cfg.memory_size - 1) = none := by
  unfold move_right
  rw [hw]
  show (if cfg.memory_size - 1 < cfg.memory_size - 1 then _ else none) = none
  rw [if_neg (by omega)]

/-- Under the bounds policy, `<` fails at index 0. -/
theorem move_left_edge (cfg : BrainfuckConfig) (hw : cfg.wrap_memory = false) :
    move_left cfg 0 = none := by
  unfold move_left
  rw [hw]
  show (if 0 < 0 then some (0 - 1) else none) = none
  rw [if_neg (by omega)]

/-! ### Input-protocol lemmas -/

/-- Every byte of an `fgets` chunk comes from the input stream. -/
theorem mem_fgets_chunk (n : Nat) (l : List Nat) (x : Nat)
    (hx : x ∈ fgets_chunk n l) : x ∈ l := by
  induction n generalizing l with
  | zero =>
    unfold fgets_chunk at hx
    cases hx
  | succ n ih =>
    cases l with
    | nil =>
      unfold fgets_chunk at hx
      cases hx
    | cons b rest =>
      unfold fgets_chunk at hx
      by_cases hb : b = 10
      · rw [if_pos hb] at hx
        simp only [List.mem_singleton] at hx
        simp [hx]
      · rw [if_neg hb] at hx
        rcases List.mem_cons.mp hx with h | h
        · simp [h]
        · exact List.mem_cons_of_mem b (ih rest h)

/-- The bytes a refill makes deliverable are never NUL: `input_size` is
`strlen(input_buffer)`, i.e. the length of the chunk up to its first NUL. -/
theorem refill_fst_nonzero (input : List Nat) (x : Nat)
    (hx : x ∈ (refill input).1) : x ≠ 0 := by
  have h := List.mem_takeWhile_imp hx
  simpa using h

/-- The bytes a refill makes deliverable come from the input stream. -/
theorem refill_fst_mem (input : List Nat) (x : Nat)
    (hx : x ∈ (refill input).1) : x ∈ input :=
  mem_fgets_chunk _ _ _ ((List.takeWhile_sublist _).subset hx)

/-- The stream left over after a refill is a suffix of the input stream. -/
theorem refill_snd_mem (input : List Nat) (x : Nat)
    (hx : x ∈ (refill input).2) : x ∈ input :=
  List.mem_of_mem_drop hx

/-- A refill whose chunk starts with a NUL byte delivers nothing. -/
theorem refill_nul_head (b : Nat) (rest : List Nat) (hb : b = 0) :
    (refill (b :: rest)).1 = [] := by
  subst hb
  rfl

/-- Byte-stream hygiene: every buffered byte is a non-NUL byte, and every
byte still unread from the input source is a byte (below 256). -/
def byte_inv (s : BFState) : Prop :=
  (∀ b ∈ s.buffered, b ≠ 0 ∧ b < 256) ∧ (∀ b ∈ s.input, b < 256)

/-- The refill of the `,` case preserves byte hygiene: delivered bytes
are non-NUL (by the `strlen` cut) and below 256 (they come from the
stream), and the remaining stream is a suffix of the old one. -/
theorem refill_byte_inv (input : List Nat) (hinp : ∀ b ∈ input, b < 256) :
    (∀ b ∈ (refill input).1, b ≠ 0 ∧ b < 256) ∧
    (∀ b ∈ (refill input).2, b < 256) := by
  constructor
  · intro b hb
    exact ⟨refill_fst_nonzero input b hb, hinp b (refill_fst_mem input b hb)⟩
  · intro b hb
    exact hinp b (refill_snd_mem input b hb)

/-- Every successful step preserves byte hygiene: the input buffer can
only shrink or be replaced by the non-NUL prefix of a fresh chunk. -/
theorem step_byte_inv (code : List Char) (cfg : BrainfuckConfig)
    (s s2 : BFState) (hstep : step code cfg s = .ok s2) (hinv : byte_inv s) :
    byte_inv s2 := by
  obtain ⟨hbuf, hinp⟩ := hinv
  unfold step at hstep
  by_cases h0 : code.getD s.pc ' ' = '>'
  · rw [if_pos h0] at hstep
    split at hstep
    · cases hstep; exact ⟨hbuf, hinp⟩
    · cases hstep
  · rw [if_neg h0] at hstep
    by_cases h1 : code.getD s.pc ' ' = '<'
    · rw [if_pos h1] at hstep
      split at hstep
      · cases hstep; exact ⟨hbuf, hinp⟩
      · cases hstep
    · rw [if_neg h1] at hstep
      by_cases h2 : code.getD s.pc ' ' = '+'
      · rw [if_pos h2] at hstep
        cases hstep; exact ⟨hbuf, hinp⟩
      · rw [if_neg h2] at hstep
        by_cases h3 : code.getD s.pc ' ' = '-'
        · rw [if_pos h3] at hstep
          cases hstep; exact ⟨hbuf, hinp⟩
        · rw [if_neg h3] at hstep
          by_cases h4 : code.getD s.pc ' ' = '.'
          · rw [if_pos h4] at hstep
            cases hstep; exact ⟨hbuf, hinp⟩
          · rw [if_neg h4] at hstep
            by_cases h5 : code.getD s.pc ' ' = ','
            · rw [if_pos h5] at hstep
              split at hstep
              next b rest inp heq =>
                cases hstep
                split at heq
                next =>
                  have h2 : (refill s.input).1 = b :: rest := by rw [heq]
                  have h3 : (refill s.input).2 = inp := by rw [heq]
                  obtain ⟨hd, hr⟩ := refill_byte_inv s.input hinp
                  refine ⟨fun x hx => hd x ?_, fun x hx => hr x ?_⟩
                  · rw [h2]; exact List.mem_cons_of_mem b hx
                  · rw [h3]; exact hx
                next =>
                  have h2 : s.buffered = b :: rest := congrArg Prod.fst heq
                  have h3 : s.input = inp := congrArg Prod.snd heq
                  refine ⟨fun x hx => hbuf x ?_, fun x hx => hinp x ?_⟩
                  · rw [h2]; exact List.mem_cons_of_mem b hx
                  · rw [h3]; exact hx
              next inp heq =>
                split at hstep <;> cases hstep <;> refine ⟨by simp, fun x hx => ?_⟩ <;> split at heq
                · have h3 : (refill s.input).2 = inp := by rw [heq]
                  refine hinp x (refill_snd_mem s.input x ?_)
                  rw [h3]; exact hx
                · have h3 : s.input = inp := congrArg Prod.snd heq
                  refine hinp x ?_
                  rw [h3]; exact hx
                · have h3 : (refill s.input).2 = inp := by rw [heq]
                  refine hinp x (refill_snd_mem s.input x ?_)
                  rw [h3]; exact hx
                · have h3 : s.input = inp := congrArg Prod.snd heq
                  refine hinp x ?_
                  rw [h3]; exact hx
            · rw [if_neg h5] at hstep
              by_cases h6 : code.getD s.pc ' ' = '['
              · rw [if_pos h6] at hstep
                split at hstep
                · split at hstep
                  · cases hstep; exact ⟨hbuf, hinp⟩
                  · cases hstep
                · split at hstep
                  · cases hstep
                  · cases hstep; exact ⟨hbuf, hinp⟩
              · rw [if_neg h6] at hstep
                by_cases h7 : code.getD s.pc ' ' = ']'
                · rw [if_pos h7] at hstep
                  split at hstep
                  · cases hstep
                  · split at hstep
                    · cases hstep; exact ⟨hbuf, hinp⟩
                    · cases hstep; exact ⟨hbuf, hinp⟩
                · rw [if_neg h7] at hstep
                  cases hstep; exact ⟨hbuf, hinp⟩

/-! ### The claims -/

/-- C1: the program `++++++++[>++++++++<-]>.` under the default
configuration terminates without error and its output stream is exactly
one byte with value 64. -/
theorem claim_C1_output64 :
    RunResult.isOk (execute_brainfuck (String.toList "++++++++[>++++++++<-]>.")
      defaultConfig [] 200) = true ∧
    RunResult.getOutput (execute_brainfuck (String.toList "++++++++[>++++++++<-]>.")
      defaultConfig [] 200) = [64] := by
  decide

/-- C2 counterexample: for the program `[]` started with current cell 0,
the forward jump's target — the matching `]` — is index 1, yet the
program counter at the start of the next step is 2, not 1: line 208
increments `pc` unconditionally, after jump transitions as well. -/
theorem claim_C2_counterexample :
    skip_scan (String.toList "[]") 0 1 = some 1 ∧
    StepResult.pcOf (step (String.toList "[]") defaultConfig (initState [])) = 2 ∧
    StepResult.pcOf (step (String.toList "[]") defaultConfig (initState [])) ≠ 1 := by
  decide

/-- C2 (amended): after a loop-jump step — a forward skip on `[` with
the current cell 0, or a backward jump on `]` with the current cell
non-zero — the program counter at the start of the next step equals the
jump target plus one (one past the matching `]`, respectively one past
the stacked `[` position), because the dispatcher's unconditional
post-instruction increment (line 208) also applies to transitions that
explicitly set the counter. -/
theorem claim_C2_jump_pc (code : List Char) (cfg : BrainfuckConfig) (s : BFState) :
    (∀ j, code.getD s.pc ' ' = '[' → s.mem s.ptr = 0 →
      skip_scan code s.pc 1 = some j →
      step code cfg s = .ok { s with pc := j + 1 }) ∧
    (∀ t rest, code.getD s.pc ' ' = ']' → s.loop_stack = t :: rest →
      s.mem s.ptr ≠ 0 →
      step code cfg s = .ok { s with pc := t + 1 }) :=
  ⟨fun j h h0 hj => step_open_skip code cfg s j h h0 hj,
   fun t rest h hs h0 => step_close_nonzero code cfg s t rest h hs h0⟩

/-- Witness for the amended C2 at concrete inputs: the forward skip of
`[]` from cell 0 continues at 2 = 1 + 1, and the backward jump of `]`
with stack top 0 and cell 1 continues at 1 = 0 + 1. -/
theorem claim_C2_jump_pc_witness :
    step (String.toList "[]") defaultConfig (initState []) =
      .ok { initState [] with pc := 2 } ∧
    step (String.toList "[]") defaultConfig
      { mem := fun _ => 1, ptr := 0, pc := 1, loop_stack := [0],
        buffered := [], input := [], output := [] } =
      .ok { mem := fun _ => 1, ptr := 0, pc := 1, loop_stack := [0],
            buffered := [], input := [], output := [] } :=
  ⟨(claim_C2_jump_pc (String.toList "[]") defaultConfig (initState [])).1 1 rfl rfl rfl,
   (claim_C2_jump_pc (String.toList "[]") defaultConfig
      { mem := fun _ => 1, ptr := 0, pc := 1, loop_stack := [0],
        buffered := [], input := [], output := [] }).2 0 [] rfl rfl (by decide)⟩

/-- C3: a `[` executed with current cell 0 whose forward scan finds a
matching `]` skips in one step past the whole loop body, changing
nothing but the program counter; in particular `[[-]]` from cell 0
terminates immediately with the tape unchanged, no output, an empty
loop stack and no error. -/
theorem claim_C3_skip_whole_body :
    (∀ (code : List Char) (cfg : BrainfuckConfig) (s : BFState) (j : Nat),
      code.getD s.pc ' ' = '[' → s.mem s.ptr = 0 →
      skip_scan code s.pc 1 = some j →
      step code cfg s = .ok { s with pc := j + 1 }) ∧
    execute_brainfuck (String.toList "[[-]]") defaultConfig [] 10 =
      .ok { initState [] with pc := 5 } :=
  ⟨fun code cfg s j h h0 hj => step_open_skip code cfg s j h h0 hj, rfl⟩

/-- Witness for C3: the skip of `[-]` from the initial state lands one
past the matching `]` and changes nothing else. -/
theorem claim_C3_witness :
    step (String.toList "[-]") defaultConfig (initState []) =
      .ok { initState [] with pc := 3 } :=
  claim_C3_skip_whole_body.1 (String.toList "[-]") defaultConfig (initState []) 2 rfl rfl rfl

/-- C4: `]` with the current cell non-zero jumps back using the position
on top of the loop stack without popping it, and `]` with the cell 0
pops the stack; the program `+++[-]` under the default configuration
terminates normally with cell 0, pointer 0 and an empty loop stack. -/
theorem claim_C4_close_semantics :
    (∀ (code : List Char) (cfg : BrainfuckConfig) (s : BFState) (t : Nat) (rest : List Nat),
      code.getD s.pc ' ' = ']' → s.loop_stack = t :: rest →
      (s.mem s.ptr ≠ 0 → step code cfg s = .ok { s with pc := t + 1 }) ∧
      (s.mem s.ptr = 0 → step code cfg s = .ok { s with loop_stack := rest, pc := s.pc + 1 })) ∧
    (RunResult.isOk (execute_brainfuck (String.toList "+++[-]") defaultConfig [] 40) = true ∧
     (RunResult.stateOf (execute_brainfuck (String.toList "+++[-]") defaultConfig [] 40)).mem 0 = 0 ∧
     (RunResult.stateOf (execute_brainfuck (String.toList "+++[-]") defaultConfig [] 40)).ptr = 0 ∧
     (RunResult.stateOf (execute_brainfuck (String.toList "+++[-]") defaultConfig [] 40)).loop_stack = []) :=
  ⟨fun code cfg s t rest h hs =>
     ⟨fun h0 => step_close_nonzero code cfg s t rest h hs h0,
      fun h0 => step_close_zero code cfg s t rest h hs h0⟩,
   by decide⟩

/-- Witness for C4 at concrete inputs: `]` of `[]` with stack `[0]` and
cell 1 re-enters at 1 without popping; with cell 0 it pops and moves on. -/
theorem claim_C4_witness :
    step (String.toList "[]") defaultConfig
      { mem := fun _ => 1, ptr := 0, pc := 1, loop_stack := [0],
        buffered := [], input := [], output := [65] } =
      .ok { mem := fun _ => 1, ptr := 0, pc := 1, loop_stack := [0],
            buffered := [], input := [], output := [65] } ∧
    step (String.toList "[]") defaultConfig
      { mem := fun _ => 0, ptr := 0, pc := 1, loop_stack := [0],
        buffered := [], input := [], output := [] } =
      .ok { mem := fun _ => 0, ptr := 0, pc := 2, loop_stack := [],
            buffered := [], input := [], output := [] } :=
  ⟨(claim_C4_close_semantics.1 (String.toList "[]") defaultConfig
      { mem := fun _ => 1, ptr := 0, pc := 1, loop_stack := [0],
        buffered := [], input := [], output := [65] } 0 []
      rfl rfl).1 (by decide),
   (claim_C4_close_semantics.1 (String.toList "[]") defaultConfig
      { mem := fun _ => 0, ptr := 0, pc := 1, loop_stack := [0],
        buffered := [], input := [], output := [] } 0 []
      rfl rfl).2 rfl⟩

/-- C5: under the wrap policy, for any tape length at least 1 and any
starting index, the pointer moves never fail, `>` from the last index
yields 0, `<` from 0 yields the last index, and `memory_size` moves in
either direction return the pointer to its start. -/
theorem claim_C5_wrap_cyclic (cfg : BrainfuckConfig) (p : Nat)
    (hw : cfg.wrap_memory = true) (h1 : 1 ≤ cfg.memory_size)
    (hp : p < cfg.memory_size) :
    (move_right cfg p).isSome = true ∧ (move_left cfg p).isSome = true ∧
    move_right cfg (cfg.memory_size - 1) = some 0 ∧
    move_left cfg 0 = some (cfg.memory_size - 1) ∧
    apply_moves cfg move_right cfg.memory_size p = some p ∧
    apply_moves cfg move_left cfg.memory_size p = some p := by
  refine ⟨?_, ?_, ?_, ?_, ?_, ?_⟩
  · rw [move_right_wrap cfg hw p hp]; rfl
  · rw [move_left_wrap cfg hw p hp]; rfl
  · rw [move_right_wrap cfg hw (cfg.memory_size - 1) (by omega),
        Nat.sub_add_cancel h1, Nat.mod_self]
  · rw [move_left_wrap cfg hw 0 (by omega), Nat.zero_add,
        Nat.mod_eq_of_lt (by omega)]
  · rw [apply_moves_right_wrap cfg hw cfg.memory_size p hp,
        Nat.add_mod_right, Nat.mod_eq_of_lt hp]
  · rw [apply_moves_left_wrap cfg hw cfg.memory_size p hp,
        Nat.mul_comm, Nat.add_mul_mod_self_right, Nat.mod_eq_of_lt hp]

/-- Witness for C5 on a tape of length 5 starting at index 3. -/
theorem claim_C5_witness :
    (move_right ⟨true, false, 5, false⟩ 3).isSome = true ∧
    (move_left ⟨true, false, 5, false⟩ 3).isSome = true ∧
    move_right ⟨true, false, 5, false⟩ 4 = some 0 ∧
    move_left ⟨true, false, 5, false⟩ 0 = some 4 ∧
    apply_moves ⟨true, false, 5, false⟩ move_right 5 3 = some 3 ∧
    apply_moves ⟨true, false, 5, false⟩ move_left 5 3 = some 3 :=
  claim_C5_wrap_cyclic ⟨true, false, 5, false⟩ 3 rfl (by decide) (by decide)

/-- C6: under the bounds policy, `>` at the last index or `<` at index 0
makes the run halt immediately with `OutOfBounds` at the current
program-counter position, with the state — tape and output included —
exactly as it was before the failing step. -/
theorem claim_C6_oob_halts (code : List Char) (cfg : BrainfuckConfig)
    (s : BFState) (fuel : Nat)
    (hw : cfg.wrap_memory = false) (hpc : s.pc < code.length)
    (hc : (code.getD s.pc ' ' = '>' ∧ s.ptr = cfg.memory_size - 1) ∨
          (code.getD s.pc ' ' = '<' ∧ s.ptr = 0)) :
    run code cfg (fuel + 1) s = .err (.outOfBounds s.pc) s := by
  rcases hc with ⟨hi, hp⟩ | ⟨hi, hp⟩
  · refine run_err code cfg s s _ fuel hpc ?_
    refine step_gt_err code cfg s hi ?_
    rw [hp]
    exact move_right_edge cfg hw
  · refine run_err code cfg s s _ fuel hpc ?_
    refine step_lt_err code cfg s hi ?_
    rw [hp]
    exact move_left_edge cfg hw

/-- Witness for C6: `<` at index 0 under the default (non-wrap)
configuration halts with `OutOfBounds 0` and the initial state intact. -/
theorem claim_C6_witness :
    run ['<'] defaultConfig 1 (initState []) =
      .err (.outOfBounds 0) (initState []) :=
  claim_C6_oob_halts ['<'] defaultConfig (initState []) 0 rfl (by decide)
    (Or.inr ⟨rfl, rfl⟩)

/-- C7: `+` sets the current cell to (v+1) mod 256 and `-` to (v-1) mod
256 (as integers), touching no other cell, producing no output and never
raising an error; 255 `+` from 0 give 255 and a 256th gives 0. -/
theorem claim_C7_cell_arith_mod256 :
    (∀ (code : List Char) (cfg : BrainfuckConfig) (s : BFState),
      code.getD s.pc ' ' = '+' →
      ∃ s2, step code cfg s = .ok s2 ∧
        s2.mem s.ptr = (s.mem s.ptr + 1) % 256 ∧
        (∀ i, i ≠ s.ptr → s2.mem i = s.mem i) ∧ s2.output = s.output) ∧
    (∀ (code : List Char) (cfg : BrainfuckConfig) (s : BFState),
      code.getD s.pc ' ' = '-' →
      ∃ s2, step code cfg s = .ok s2 ∧
        (s2.mem s.ptr : Int) = ((s.mem s.ptr : Int) - 1) % 256 ∧
        (∀ i, i ≠ s.ptr → s2.mem i = s.mem i) ∧ s2.output = s.output) ∧
    ((RunResult.stateOf (execute_brainfuck (List.replicate 255 '+') defaultConfig [] 256)).mem 0 = 255 ∧
     RunResult.isOk (execute_brainfuck (List.replicate 255 '+') defaultConfig [] 256) = true) ∧
    ((RunResult.stateOf (execute_brainfuck (List.replicate 256 '+') defaultConfig [] 257)).mem 0 = 0 ∧
     RunResult.isOk (execute_brainfuck (List.replicate 256 '+') defaultConfig [] 257) = true) := by
  refine ⟨?_, ?_, by decide, by decide⟩
  · intro code cfg s h
    refine ⟨_, step_plus code cfg s h, ?_, ?_, rfl⟩
    · show mem_write s.mem s.ptr ((s.mem s.ptr + 1) % 256) s.ptr = _
      unfold mem_write
      rw [if_pos rfl]
    · intro i hi
      show mem_write s.mem s.ptr ((s.mem s.ptr + 1) % 256) i = _
      unfold mem_write
      rw [if_neg hi]
  · intro code cfg s h
    refine ⟨_, step_minus code cfg s h, ?_, ?_, rfl⟩
    · show (↑(mem_write s.mem s.ptr ((s.mem s.ptr + 255) % 256) s.ptr) : Int) = _
      unfold mem_write
      rw [if_pos rfl]
      omega
    · intro i hi
      show mem_write s.mem s.ptr ((s.mem s.ptr + 255) % 256) i = _
      unfold mem_write
      rw [if_neg hi]

/-- Witness for C7: one `+` and one `-` step from the initial state. -/
theorem claim_C7_witness :
    (∃ s2, step ['+'] defaultConfig (initState []) = .ok s2 ∧
      s2.mem 0 = ((initState []).mem 0 + 1) % 256 ∧
      (∀ i, i ≠ 0 → s2.mem i = (initState []).mem i) ∧ s2.output = []) ∧
    (∃ s2, step ['-'] defaultConfig (initState []) = .ok s2 ∧
      (s2.mem 0 : Int) = (((initState []).mem 0 : Int) - 1) % 256 ∧
      (∀ i, i ≠ 0 → s2.mem i = (initState []).mem i) ∧ s2.output = []) :=
  ⟨claim_C7_cell_arith_mod256.1 ['+'] defaultConfig (initState []) rfl,
   claim_C7_cell_arith_mod256.2.1 ['-'] defaultConfig (initState []) rfl⟩

/-- C8: a `,` executed with an exhausted buffer and an exhausted input
source raises no error: it zeroes the current cell if `eof_behavior` is
set and leaves it unchanged otherwise; the program `,.,.` on input byte
65 then end-of-input outputs 65,65 without the flag and 65,0 with it. -/
theorem claim_C8_eof_policy :
    (∀ (code : List Char) (cfg : BrainfuckConfig) (s : BFState),
      code.getD s.pc ' ' = ',' → s.buffered = [] → s.input = [] →
      step code cfg s =
        if cfg.eof_behavior then
          .ok { s with mem := mem_write s.mem s.ptr 0, pc := s.pc + 1 }
        else
          .ok { s with pc := s.pc + 1 }) ∧
    (RunResult.getOutput (execute_brainfuck (String.toList ",.,.") defaultConfig [65] 10) = [65, 65] ∧
     RunResult.isOk (execute_brainfuck (String.toList ",.,.") defaultConfig [65] 10) = true) ∧
    (RunResult.getOutput (execute_brainfuck (String.toList ",.,.")
        { defaultConfig with eof_behavior := true } [65] 10) = [65, 0] ∧
     RunResult.isOk (execute_brainfuck (String.toList ",.,.")
        { defaultConfig with eof_behavior := true } [65] 10) = true) := by
  refine ⟨?_, by decide, by decide⟩
  intro code cfg s h hb hin
  obtain ⟨mem, ptr, pc, stack, buffered, inp, out⟩ := s
  simp only at h hb hin
  subst hb
  subst hin
  rw [step_comma_refill_eof code cfg
      { mem := mem, ptr := ptr, pc := pc, loop_stack := stack,
        buffered := [], input := [], output := out } [] h rfl rfl]

/-- Witness for C8: a lone `,` on empty input from the initial state. -/
theorem claim_C8_witness :
    step [','] defaultConfig (initState []) =
      if defaultConfig.eof_behavior then
        .ok { initState [] with
              mem := mem_write (initState []).mem (initState []).ptr 0,
              pc := (initState []).pc + 1 }
      else
        .ok { initState [] with pc := (initState []).pc + 1 } :=
  claim_C8_eof_policy.1 [','] defaultConfig (initState []) rfl rfl rfl

/-- C9: a forward skip for `[` that runs off the end of the sequence
halts the run with `UnmatchedOpen`, and `]` on an empty loop stack halts
it with `UnmatchedClose` at that `]`'s position; `[+` yields
`UnmatchedOpen` and `+]` yields `UnmatchedClose`. -/
theorem claim_C9_unmatched_brackets :
    (∀ (code : List Char) (cfg : BrainfuckConfig) (s : BFState) (fuel : Nat),
      s.pc < code.length → code.getD s.pc ' ' = '[' → s.mem s.ptr = 0 →
      skip_scan code s.pc 1 = none →
      ∃ p, run code cfg (fuel + 1) s = .err (.unmatchedOpen p) s) ∧
    (∀ (code : List Char) (cfg : BrainfuckConfig) (s : BFState) (fuel : Nat),
      s.pc < code.length → code.getD s.pc ' ' = ']' → s.loop_stack = [] →
      run code cfg (fuel + 1) s = .err (.unmatchedClose s.pc) s) ∧
    RunResult.getErr (execute_brainfuck (String.toList "[+") defaultConfig [] 10) =
      some (.unmatchedOpen 2) ∧
    RunResult.getErr (execute_brainfuck (String.toList "+]") defaultConfig [] 10) =
      some (.unmatchedClose 1) := by
  refine ⟨?_, ?_, by decide, by decide⟩
  · intro code cfg s fuel hpc h h0 hj
    exact ⟨_, run_err code cfg s s _ fuel hpc (step_open_unmatched code cfg s h h0 hj)⟩
  · intro code cfg s fuel hpc h hs
    exact run_err code cfg s s _ fuel hpc (step_close_empty code cfg s h hs)

/-- Witness for C9: a lone `[` (cell 0) and a lone `]` from the initial
state halt with the two unmatched-bracket errors. -/
theorem claim_C9_witness :
    (∃ p, run ['['] defaultConfig 1 (initState []) =
      .err (.unmatchedOpen p) (initState [])) ∧
    run [']'] defaultConfig 1 (initState []) =
      .err (.unmatchedClose (initState []).pc) (initState []) :=
  ⟨claim_C9_unmatched_brackets.1 ['['] defaultConfig (initState []) 0 (by decide) rfl rfl rfl,
   claim_C9_unmatched_brackets.2.1 [']'] defaultConfig (initState []) 0 (by decide) rfl rfl⟩

/-- C10: `,` can never store a NUL byte obtained from the input source.
The refill delivers only the bytes before the first NUL of the chunk
(`strlen`); a chunk whose first byte is NUL is treated as end-of-input
for that `,` (EOF policy applied, whole chunk consumed, its remaining
bytes discarded); successful steps preserve byte hygiene of the buffer;
a delivering `,` stores the (non-NUL) head of the buffer.  Concretely,
`,.,.` with `eof_sets_zero` on input bytes 0, 65 outputs 0, 0 — the 65
after the NUL is never delivered. -/
theorem claim_C10_no_nul_delivery :
    (∀ (input : List Nat) (b : Nat), b ∈ (refill input).1 → b ≠ 0) ∧
    (∀ (cfg : BrainfuckConfig) (code : List Char) (s : BFState) (rest : List Nat),
      code.getD s.pc ' ' = ',' → s.buffered = [] → s.input = 0 :: rest →
      step code cfg s =
        if cfg.eof_behavior then
          .ok { s with
                mem := mem_write s.mem s.ptr 0, buffered := [],
                input := s.input.drop (fgets_chunk (INPUT_BUFFER_SIZE - 1) s.input).length,
                pc := s.pc + 1 }
        else
          .ok { s with
                buffered := [],
                input := s.input.drop (fgets_chunk (INPUT_BUFFER_SIZE - 1) s.input).length,
                pc := s.pc + 1 }) ∧
    (∀ (cfg : BrainfuckConfig) (code : List Char) (s s2 : BFState),
      step code cfg s = .ok s2 → byte_inv s → byte_inv s2) ∧
    (∀ (cfg : BrainfuckConfig) (code : List Char) (s : BFState) (b : Nat) (rest : List Nat),
      code.getD s.pc ' ' = ',' → s.buffered = b :: rest → byte_inv s →
      step code cfg s =
        .ok { s with mem := mem_write s.mem s.ptr b, buffered := rest, pc := s.pc + 1 } ∧
      b ≠ 0) ∧
    RunResult.getOutput (execute_brainfuck (String.toList ",.,.")
      { defaultConfig with eof_behavior := true } [0, 65] 10) = [0, 0] := by
  refine ⟨?_, ?_, ?_, ?_, by decide⟩
  · intro input b hb
    exact refill_fst_nonzero input b hb
  · intro cfg code s rest h hb hin
    obtain ⟨mem, ptr, pc, stack, buffered, inp, out⟩ := s
    simp only at h hb hin
    subst hb
    subst hin
    rw [step_comma_refill_eof code cfg
        { mem := mem, ptr := ptr, pc := pc, loop_stack := stack,
          buffered := [], input := 0 :: rest, output := out }
        ((0 :: rest).drop (fgets_chunk (INPUT_BUFFER_SIZE - 1) (0 :: rest)).length)
        h rfl rfl]
  · intro cfg code s s2 hstep hinv
    exact step_byte_inv code cfg s s2 hstep hinv
  · intro cfg code s b rest h hb hinv
    have hmem : b ∈ s.buffered := by
      rw [hb]
      exact List.mem_cons_self b rest
    obtain ⟨hb0, hb256⟩ := hinv.1 b hmem
    refine ⟨?_, hb0⟩
    rw [step_comma_deliver code cfg s b rest h hb, Nat.mod_eq_of_lt hb256]

/-- Witness for C10: a `,` delivering the buffered byte 65 stores 65. -/
theorem claim_C10_witness :
    step [','] defaultConfig
      { mem := fun _ => 0, ptr := 0, pc := 0, loop_stack := [],
        buffered := [65], input := [], output := [] } =
      .ok { mem := mem_write (fun _ => 0) 0 65, ptr := 0, pc := 1, loop_stack := [],
            buffered := [], input := [], output := [] } ∧ (65 : Nat) ≠ 0 :=
  claim_C10_no_nul_delivery.2.2.2.1 defaultConfig [',']
    { mem := fun _ => 0, ptr := 0, pc := 0, loop_stack := [],
      buffered := [65], input := [], output := [] } 65 [] rfl rfl
    ⟨by simp, by simp⟩
